import Mathlib

/- Verification of the smesvc retrieval / answer-orchestration engine
   (answer_modes.py, ask.py, rerank.py, calibrate.py, emb.py, bundle.py).
   Python strings are modelled as lists of characters; Python floats as
   rationals (every float literal used by the engine is rational), except
   for the logistic calibration which needs the real exponential. -/

namespace SME

/-- Python strings, modelled as lists of characters. -/
abbrev Str := List Char

/-- The characters Python's str.split() / str.strip() treat as whitespace. -/
def isPyWS (c : Char) : Bool :=
  c = ' ' || c = '\t' || c = '\n' || c = '\r' || c = '\x0b' || c = '\x0c'

/-- Python s.split() with no separator: split on whitespace runs, dropping
empty pieces. -/
def wsSplit (s : Str) : List Str :=
  (s.splitOnP isPyWS).filter (fun t => t ≠ [])

/-- Python s.lower() (ASCII behaviour suffices for the engine's inputs). -/
def pyLower (s : Str) : Str := s.map Char.toLower

/-- Python s.strip(): drop leading and trailing whitespace. -/
def pyStrip (s : Str) : Str :=
  ((s.dropWhile isPyWS).reverse.dropWhile isPyWS).reverse

/-- Python t.isalpha() for a token: non-empty and all alphabetic. -/
def pyIsAlphaTok (t : Str) : Bool := !t.isEmpty && t.all Char.isAlpha

/-- Python l[:i] slicing with a possibly negative bound i. -/
def pyTake {α : Type} (i : ℤ) (l : List α) : List α :=
  if 0 ≤ i then l.take i.toNat else l.take (l.length - i.natAbs)

/-- Python `n or d` for an integer n (d when n = 0). -/
def pyOr (n d : ℕ) : ℕ := if n = 0 then d else n

/-- Python `needle in hay` for strings: substring containment. -/
def strContains (hay needle : Str) : Bool := decide (needle <:+: hay)

/-- Python hay.startswith(needle). -/
def strStartsWith (hay needle : Str) : Bool := decide (needle <+: hay)

/-- ask.py _q_tokens: the set of lower-cased whitespace tokens of the
question that are purely alphabetic (also the question-token set of
rerank.py's rerank). -/
def _q_tokens (q : Str) : Finset Str :=
  ((wsSplit (pyLower q)).filter pyIsAlphaTok).toFinset

/-- ask.py _choose_mode, rule 1: any assembly keyword occurs in the
lower-cased question. -/
def assemblyCond (ql : Str) : Bool :=
  (["component", "components", "parts", "comprise", "assembly"].map
      String.toList).any (fun k => strContains ql k)

/-- ask.py _choose_mode, rule 2: starts with a how-phrase or contains
"steps". -/
def procedureCond (ql : Str) : Bool :=
  (["how ", "how do", "how to"].map String.toList).any
    (fun k => strStartsWith ql k) || strContains ql ("steps".toList)

/-- ask.py _choose_mode, rule 3: contains "compare", " vs " or
"difference". -/
def comparisonCond (ql : Str) : Bool :=
  strContains ql ("compare".toList) || strContains ql (" vs ".toList)
    || strContains ql ("difference".toList)

/-- ask.py _choose_mode, rule 4: starts with "what is", "define" or
"definition". -/
def definitionCond (ql : Str) : Bool :=
  (["what is", "define", "definition"].map String.toList).any
    (fun k => strStartsWith ql k)

/-- ask.py _choose_mode: ordered keyword rules on the lower-cased question. -/
def _choose_mode (q : Str) : String :=
  let ql := pyLower q
  if assemblyCond ql then "assembly"
  else if procedureCond ql then "procedure"
  else if comparisonCond ql then "comparison"
  else if definitionCond ql then "definition"
  else "sme"

/-- Spec-side rule table for the C1 refinement: mode selection as an ordered
rule table applied to the lower-cased question, first matching rule winning,
in the spec's order (assembly, procedure, comparison, definition). -/
def modeRules : List ((Str → Bool) × String) :=
  [ (assemblyCond, "assembly"), (procedureCond, "procedure"),
    (comparisonCond, "comparison"), (definitionCond, "definition") ]

/-- Spec-side combinator for C1: first matching rule wins, otherwise the default. -/
def firstMatch (rules : List ((Str → Bool) × String)) (dflt : String)
    (ql : Str) : String :=
  match rules.find? (fun r => r.1 ql) with
  | some r => r.2
  | none => dflt

/-- Spec-side definition for C1: the spec's ordered mode-selection rules. -/
def choose_mode_spec (q : Str) : String := firstMatch modeRules "sme" (pyLower q)

/-- A chunk row, as selected from the chunks table
(id, doc_id, page_from, page_to, text); doc_id may be null. -/
structure Chunk where
  id : ℕ
  doc_id : Option ℕ
  page_from : Option ℕ
  page_to : Option ℕ
  text : Str
deriving DecidableEq

/-- A knowledge-card row (kcs table: id, q, a_ref). -/
structure KC where
  id : ℕ
  q : Str
  a_ref : Str
deriving DecidableEq

/-- A document row (docs table: doc_id, title, meta.author). -/
structure Doc where
  doc_id : ℕ
  title : Str
  author : Str
deriving DecidableEq

/-- A graph-node row (graph table: id, doc_id, label, ntype, page). -/
structure GNode where
  id : ℕ
  doc_id : Option ℕ
  label : Str
  ntype : Str
  page : Option ℕ
deriving DecidableEq

/-- A snapshot of the four store tables bundle.build reads. -/
structure DB where
  kcs : List KC
  docs : List Doc
  graph : List GNode
  chunks : List Chunk

/-- An embedding provider: the engine only relies on it mapping a text to a
vector (cosine is taken over such vectors). None models "no provider". -/
def Provider := Str → List ℚ

/-- emb.py cosine: dot product of the two vectors. -/
def cosine (a b : List ℚ) : ℚ := (List.zipWith (· * ·) a b).sum

/-- emb.py lexical_score: the query-token set, keeping only whitespace
tokens of the lower-cased query that are longer than 2 characters. -/
def lexQTokens (q : Str) : Finset Str :=
  ((wsSplit (pyLower q)).filter (fun t => 2 < t.length)).toFinset

/-- emb.py lexical_score: the candidate-token set (all whitespace tokens of
the lower-cased text). -/
def lexTTokens (text : Str) : Finset Str := (wsSplit (pyLower text)).toFinset

/-- emb.py lexical_score: token-overlap fallback score. -/
def lexical_score (q text : Str) : ℚ :=
  if q = [] ∨ text = [] then 0
  else
    let qs := lexQTokens q
    if qs = ∅ then 0
    else
      let ts := lexTTokens text
      ((qs ∩ ts).card : ℚ) / (max 1 qs.card : ℕ)

/-- Spec-side definition for C8: the claimed fallback score, with plain
whitespace tokenization of the lower-cased query (no length filter). -/
def lexical_score_claim (q text : Str) : ℚ :=
  let qs := (wsSplit (pyLower q)).toFinset
  if qs = ∅ then 0 else ((qs ∩ lexTTokens text).card : ℚ) / qs.card

/-- bundle.py _score_by_texts: embedding scores when a provider is present,
lexical fallback otherwise. -/
def _score_by_texts (prov : Option Provider) (query : Str)
    (texts : List Str) : List ℚ :=
  match prov with
  | none => texts.map (fun t => lexical_score query t)
  | some f => texts.map (fun t => cosine (f query) (f t))

/-- bundle.py _topk_scored: sort the (score, row) pairs by score descending
(stable) and keep the first k rows. -/
def _topk_scored {α : Type} (pairs : List (ℚ × α)) (k : ℤ) : List α :=
  (pyTake k (pairs.mergeSort (fun a b => decide (b.1 ≤ a.1)))).map Prod.snd

/-- The ellipsis marker bundle.build appends to truncated chunk text. -/
def ellipsisMarker : Str := "…".toList

/-- bundle.py build, chunk-truncation step: texts longer than the budget are
cut to budget-1 characters (Python slice semantics) plus the marker. -/
def truncateChunkText (mx : ℤ) (t : Str) : Str :=
  if mx < (t.length : ℤ) then pyTake (mx - 1) t ++ ellipsisMarker else t

/-- The limits dict bundle.build works with, after merging caller limits
over the defaults. -/
structure Limits where
  l0 : ℤ := 8
  l1 : ℤ := 5
  l2 : ℤ := 25
  l3 : ℤ := 20
  chunk_text_max : ℤ := 300
deriving DecidableEq

/-- The bundle structure build returns. The meta dict is modelled by the
note / notes / lim fields (absent keys are none / []). -/
structure Bundle where
  topic : Str
  l0 : List KC
  l1 : List Doc
  l2 : List GNode
  l3 : List Chunk
  note : Option String
  notes : List String
  lim : Option Limits

/-- bundle.py build: layered retrieval. The store handle may be
unavailable (db? = none models _sb() / the queries failing); the empty-topic
branch returns before any store access. -/
def build (prov : Option Provider) (db? : Option DB) (topic : Str)
    (limits : Option Limits) : Except String Bundle :=
  let topic := pyStrip topic
  if topic = [] then
    .ok { topic := topic, l0 := [], l1 := [], l2 := [], l3 := [],
          note := some "empty topic", notes := [], lim := none }
  else
    match db? with
    | none => .error "store unavailable"
    | some db =>
      let lim := limits.getD {}
      let kcs := db.kcs.take 200
      let kcs_scores := _score_by_texts prov topic (kcs.map KC.q)
      let l0 := _topk_scored (kcs_scores.zip kcs) lim.l0
      let docs := db.docs.take 50
      let docs_texts := docs.map (fun d => d.title ++ [' '] ++ d.author)
      let docs_scores := _score_by_texts prov topic docs_texts
      let l1 := _topk_scored (docs_scores.zip docs) lim.l1
      let graph := db.graph.take 300
      let graph_scores := _score_by_texts prov topic (graph.map GNode.label)
      let l2 := _topk_scored (graph_scores.zip graph) lim.l2
      let chunks := db.chunks.take 300
      let chunk_scores := _score_by_texts prov topic (chunks.map Chunk.text)
      let l3 := _topk_scored (chunk_scores.zip chunks) lim.l3
      let mx := lim.chunk_text_max
      let l3 := l3.map (fun c => { c with text := truncateChunkText mx c.text })
      .ok { topic := topic, l0 := l0, l1 := l1, l2 := l2, l3 := l3,
            note := none,
            notes := [if prov.isSome then "semantic" else "lexical_fallback"],
            lim := some lim }

/-- rerank.py rerank: token coverage of the question against the candidate's
alphabetic whitespace tokens, denominator `len(q_tokens) or 1`. -/
def rrCov (question : Str) (ch : Chunk) : ℚ :=
  let qtok := _q_tokens question
  let toks := ((wsSplit (pyLower ch.text)).filter pyIsAlphaTok).toFinset
  ((qtok ∩ toks).card : ℚ) / (pyOr qtok.card 1 : ℕ)

/-- rerank.py rerank: brevity term 1.0 / max(len(txt), 80) * 80. -/
def rrBrev (txt : Str) : ℚ := 1 / (max txt.length 80 : ℕ) * 80

/-- rerank.py rerank: score = 0.65 * coverage + 0.35 * brevity. -/
def rrScore (question : Str) (ch : Chunk) : ℚ :=
  0.65 * rrCov question ch + 0.35 * rrBrev (pyLower ch.text)

/-- Spec-side definition for C2: the claimed token coverage — question-token
set intersected with candidate-token set over question-token count, said to
be 1 when the question has no tokens. -/
def tokenCoverageSpec (question : Str) (ch : Chunk) : ℚ :=
  let qtok := _q_tokens question
  if qtok = ∅ then 1
  else ((qtok ∩ ((wsSplit (pyLower ch.text)).filter pyIsAlphaTok).toFinset).card : ℚ)
    / (qtok.card : ℚ)

/-- The diversity-banding walk shared by rerank.py rerank and ask.py
_rerank: walk the ranked list, skip candidates whose band was already
emitted, stop once `need` candidates are collected (need = max(1, topK)). -/
def bandWalk {β : Type} [DecidableEq β] (band : Chunk → β) :
    List Chunk → Finset β → ℕ → List Chunk
  | [], _, _ => []
  | ch :: rest, seen, need =>
    if band ch ∈ seen then bandWalk band rest seen need
    else if need ≤ 1 then [ch]
    else ch :: bandWalk band rest (insert (band ch) seen) (need - 1)

/-- rerank.py rerank: band = text length // 200. -/
def rrBand (ch : Chunk) : ℕ := ch.text.length / 200

/-- rerank.py rerank: sort by score descending (stable), then diversity
banding by length band, stopping at max(1, top_k). -/
def rerank (question : Str) (candidates : List Chunk) (top_k : ℤ) :
    List Chunk :=
  let ranked :=
    candidates.mergeSort (fun a b => decide (rrScore question b ≤ rrScore question a))
  bandWalk rrBand ranked ∅ (max 1 top_k).toNat

/-- ask.py _rerank: coverage counts question tokens occurring as substrings
of the lower-cased candidate text, denominator `len(qtok) or 1`. -/
def askCov (question : Str) (ch : Chunk) : ℚ :=
  let qtok := _q_tokens question
  let txt := pyLower ch.text
  ((qtok.filter (fun t => strContains txt t = true)).card : ℚ)
    / (pyOr qtok.card 1 : ℕ)

/-- ask.py _rerank: brevity term 1.0 / max(len(txt), 120) * 120. -/
def askBrev (txt : Str) : ℚ := 1 / (max txt.length 120 : ℕ) * 120

/-- ask.py _rerank: score = 0.7 * coverage + 0.3 * brevity. -/
def askScore (question : Str) (ch : Chunk) : ℚ :=
  0.7 * askCov question ch + 0.3 * askBrev (pyLower ch.text)

/-- ask.py _rerank: band = (doc_id, text length // 200). -/
def askBand (ch : Chunk) : Option ℕ × ℕ := (ch.doc_id, ch.text.length / 200)

/-- ask.py _rerank: sort by score descending (stable), then diversity
banding by (doc_id, length band), stopping at max(1, top_k). -/
def _rerank (question : Str) (candidates : List Chunk) (top_k : ℤ) :
    List Chunk :=
  let ranked :=
    candidates.mergeSort (fun a b => decide (askScore question b ≤ askScore question a))
  bandWalk askBand ranked ∅ (max 1 top_k).toNat

/-- ask.py _diversity: distinct non-null doc ids over total count
(denominator max(1, len)). -/
def _diversity (chunks : List Chunk) : ℚ :=
  let docs := chunks.map Chunk.doc_id
  let uniq := (docs.filterMap id).dedup.length
  (uniq : ℚ) / (max 1 docs.length : ℕ)

/-- ask.py _top_labels, main loop: collect stripped labels, skipping empty
ones, those longer than 20 chars, and case-insensitive duplicates; stop
after k labels. -/
def topLabelsGo : List GNode → Finset Str → ℕ → List Str
  | [], _, _ => []
  | n :: rest, seen, need =>
    let lab := pyStrip n.label
    if lab = [] then topLabelsGo rest seen need
    else if 20 < lab.length then topLabelsGo rest seen need
    else if pyLower lab ∈ seen then topLabelsGo rest seen need
    else if need ≤ 1 then [lab]
    else lab :: topLabelsGo rest (insert (pyLower lab) seen) (need - 1)

/-- ask.py _top_labels. -/
def _top_labels (l2 : List GNode) (k : ℕ) : List Str := topLabelsGo l2 ∅ k

/-- ask.py orchestration trace entries: the baseline bundle entry and the
expansion entries. -/
inductive TraceEntry
  | base (q : Str) (l2 l3 : ℕ)
  | expandStep (q : Str) (adds : ℕ)
deriving DecidableEq

/-- ask.py _need_expand: low chunk diversity or lexical fallback. -/
def _need_expand (b : Bundle) : Bool :=
  let lexical_fallback := !b.notes.isEmpty && b.notes.contains "lexical_fallback"
  decide (_diversity b.l3 < 0.35) || lexical_fallback

/-- ask.py _assembly_expand: the fixed assembly prior terms. -/
def assemblyPriors : List Str :=
  ["components", "parts", "binding", "lining", "tape", "reed", "stitch",
   "band"].map String.toList

/-- ask.py _assembly_expand, expansion loop: one build call per term,
accumulating chunks and expand trace entries. -/
def expandGo (prov : Option Provider) (db? : Option DB) (seed : Str)
    (limits : Limits) :
    List Str → List Chunk → Except String (List Chunk × List TraceEntry)
  | [], acc => .ok (acc, [])
  | term :: rest, acc =>
    let q2 := seed ++ [' '] ++ term
    match build prov db? q2 (some limits) with
    | .error e => .error e
    | .ok b2 =>
      match expandGo prov db? seed limits rest (acc ++ b2.l3) with
      | .error e => .error e
      | .ok (cs, tr) => .ok (cs, TraceEntry.expandStep q2 b2.l3.length :: tr)

/-- ask.py _assembly_expand: derive expansion terms from graph-node labels
(dropping terms already among the question tokens, padding with the
priors), then union the chunks of one build call per term. -/
def _assembly_expand (prov : Option Provider) (db? : Option DB) (seed : Str)
    (b : Bundle) (limits : Limits) (max_expands : ℤ) :
    Except String (List Chunk × List TraceEntry) :=
  let labels := _top_labels b.l2 12
  let used := _q_tokens seed
  let labels := labels.filter (fun t => decide (pyLower t ∉ used))
  let labels := assemblyPriors.foldl
    (fun ls t => if t ∈ ls then ls else ls ++ [t]) labels
  expandGo prov db? seed limits (pyTake max_expands labels) b.l3

/-- ask.py _assemble_answer: the fixed no-evidence fallback sentence. -/
def noEvidenceMsg : Str :=
  "I don’t have enough evidence to answer confidently.".toList

/-- ask.py _assemble_answer: the procedure-mode action-verb list. -/
def procVerbs : List Str :=
  ["sew", "stitch", "turn", "gather", "press", "join", "attach",
   "bind"].map String.toList

/-- ask.py _assemble_answer: the assembly-mode stop-words. -/
def assemblyStopwords : List Str :=
  ["the", "and", "with", "from", "into", "over", "under", "inch", "inches",
   "page", "pages", "figure"].map String.toList

/-- ask.py _assemble_answer: the assembly-mode domain-term allow-list. -/
def assemblyAllowTerms : List Str :=
  ["sweat", "leather", "reed", "tape", "binding", "lining", "stitch",
   "band", "seam"].map String.toList

/-- Python s.title(): upper-case a letter starting a letter run, lower-case
the other letters. -/
def pyTitleGo : Bool → Str → Str
  | _, [] => []
  | prevAlpha, c :: cs =>
    (if c.isAlpha then (if prevAlpha then c.toLower else c.toUpper) else c)
      :: pyTitleGo c.isAlpha cs

/-- Python s.title(). -/
def pyTitle (s : Str) : Str := pyTitleGo false s

/-- Lexicographic string sort key for Python sorted() over strings. -/
def strSorted (l : List Str) : List Str :=
  l.mergeSort (fun a b => decide ¬ (b < a))

/-- ask.py _assemble_answer. The assembly-mode phrase extraction
(re.findall of short capitalized-ish spans) is modelled by the `extract`
parameter; the surrounding filtering, dedup, title-casing and rendering is
embedded faithfully. -/
def _assemble_answer (extract : Str → List Str) (chunks : List Chunk)
    (mode : String) : Str :=
  let texts := (chunks.filter (fun c => c.text ≠ [])).map (fun c => pyStrip c.text)
  if texts = [] then noEvidenceMsg
  else if mode = "procedure" then
    let steps := (texts.take 6).flatMap (fun t =>
      ((t.splitOn '.').map pyStrip).filter (fun s =>
        s ≠ [] && procVerbs.any (fun k => strContains (pyLower s) k)))
    let steps := if pyTake 8 steps = [] then [texts.headI] else pyTake 8 steps
    ("Steps:\n- ".toList) ++ List.intercalate ("\n- ".toList) steps
  else if mode = "comparison" then
    let a := pyTake 260 texts.headI
    let b := match texts with
      | _ :: t2 :: _ => pyTake 260 t2
      | _ => pyTake 260 texts.headI
    ("Summary (A vs B):\n- Evidence A: ".toList) ++ a
      ++ ("\n- Evidence B: ".toList) ++ b
  else
    let assemblyResult : Option Str :=
      if mode = "assembly" then
        let items := (texts.take 8).flatMap (fun t =>
          (extract t).filterMap (fun m =>
            let ml := pyStrip (pyLower m)
            if ml ∈ assemblyStopwords then none
            else if assemblyAllowTerms.any (fun k => strContains ml k) then
              some (pyStrip m)
            else none))
        let items := strSorted (items.map pyTitle).dedup
        if items ≠ [] then
          some (("Typical components: ".toList)
            ++ List.intercalate (" • ".toList) (pyTake 12 items)
            ++ (".".toList))
        else none
      else none
    match assemblyResult with
    | some s => s
    | none =>
      if mode = "definition" then pyTake 700 texts.headI
      else pyTake 1400 (List.intercalate [' '] texts)

/-- The options ask.py run reads from its opts dict, with their defaults. -/
structure Opts where
  chunk_text_max : ℤ := 800
  beam : ℤ := 3
  citations_max : ℤ := 6
  return_trace : Bool := true
deriving DecidableEq

/-- A citation: the keys of a ranked chunk among ("id","doc_id","offset");
chunk rows carry no offset, so a citation is {id, doc_id}. -/
structure Citation where
  id : ℕ
  doc_id : Option ℕ
deriving DecidableEq

/-- The AnswerPack ask.py run emits (data field). The trace key is always
present in the source; `some` models key presence. -/
structure AnswerPack where
  answer : Str
  citations : List Citation
  answer_mode : String
  diversity : ℚ
  trace : Option (List TraceEntry)
deriving DecidableEq

/-- Python round(x, 3) on the diversity value (round-half-up model of the
rounding; the engine's claims do not depend on the tie rule). -/
def qRound3 (x : ℚ) : ℚ := (round (x * 1000) : ℤ) / 1000

/-- ask.py run: the orchestrator. -/
def run (extract : Str → List Str) (prov : Option Provider)
    (db? : Option DB) (question : Str) (opts : Opts) :
    Except String AnswerPack :=
  let limits : Limits :=
    { l0 := 8, l1 := 6, l2 := 12, l3 := 40,
      chunk_text_max := opts.chunk_text_max }
  let mode := _choose_mode question
  match build prov db? question (some limits) with
  | .error e => .error e
  | .ok b =>
    let trace0 : List TraceEntry := [.base question b.l2.length b.l3.length]
    let step2 : Except String (List Chunk × List TraceEntry) :=
      if mode = "assembly" ∧ _need_expand b = true then
        match _assembly_expand prov db? question b limits opts.beam with
        | .error e => .error e
        | .ok (expanded, t2) => .ok (expanded, trace0 ++ t2)
      else .ok (b.l3, trace0)
    match step2 with
    | .error e => .error e
    | .ok (chunks, trace) =>
      let ranked := _rerank question chunks (min 12 (pyOr chunks.length 12 : ℕ))
      let answer := _assemble_answer extract ranked mode
      .ok { answer := answer,
            citations := pyTake opts.citations_max (ranked.map
              (fun ch => { id := ch.id, doc_id := ch.doc_id })),
            answer_mode := mode,
            diversity := qRound3 (_diversity ranked),
            trace := some (if opts.return_trace then trace else []) }

/-- calibrate.py: the linear feature combination z (the inputs are floats,
hence rationals). -/
def calibrate_z (cov con div : ℚ) (fall : Bool) : ℚ :=
  (1.8 * cov + 1.6 * con + 1.2 * div) - (if fall then 0.8 else 0) - 1.2

/-- calibrate.py _sigmoid: the logistic function. -/
noncomputable def sigmoid (x : ℝ) : ℝ := 1 / (1 + Real.exp (-x))

/-- Python round(x, 3) over the reals (round-half-up model; weakly monotone
like Python's round-half-even, which is all C4 relies on). -/
noncomputable def rRound3 (x : ℝ) : ℝ := (round (x * 1000) : ℤ) / 1000

/-- calibrate.py calibrate: the confidence value of the returned dict. -/
noncomputable def calibrate (cov con div : ℚ) (fall : Bool) : ℝ :=
  rRound3 (sigmoid ((calibrate_z cov con div fall : ℚ) : ℝ))

/-- Every element the banding walk emits comes from the walked list. -/
theorem bandWalk_subset {β : Type} [DecidableEq β] (band : Chunk → β) :
    ∀ (l : List Chunk) (seen : Finset β) (need : ℕ),
      ∀ c ∈ bandWalk band l seen need, c ∈ l := by
  intro l
  induction l with
  | nil => intro seen need c hc; simp [bandWalk] at hc
  | cons ch rest ih =>
    intro seen need c hc
    rw [bandWalk] at hc
    by_cases hb : band ch ∈ seen
    · rw [if_pos hb] at hc
      exact List.mem_cons_of_mem ch (ih seen need c hc)
    · rw [if_neg hb] at hc
      by_cases hn : need ≤ 1
      · rw [if_pos hn] at hc
        simp at hc
        simp [hc]
      · rw [if_neg hn] at hc
        rcases List.mem_cons.mp hc with h | h
        · simp [h]
        · exact List.mem_cons_of_mem ch
            (ih (insert (band ch) seen) (need - 1) c h)

/-- If every band of the walked list was already seen, nothing is emitted. -/
theorem bandWalk_all_seen {β : Type} [DecidableEq β] (band : Chunk → β) :
    ∀ (l : List Chunk) (seen : Finset β) (need : ℕ),
      (∀ c ∈ l, band c ∈ seen) → bandWalk band l seen need = [] := by
  intro l
  induction l with
  | nil => intro seen need _; rw [bandWalk]
  | cons ch rest ih =>
    intro seen need h
    rw [bandWalk, if_pos (h ch (List.mem_cons_self ch rest))]
    exact ih seen need (fun c hc => h c (List.mem_cons_of_mem ch hc))

/-- If all list elements share one band value, the walk emits at most one. -/
theorem bandWalk_const_band {β : Type} [DecidableEq β] (band : Chunk → β)
    (v : β) : ∀ (l : List Chunk) (seen : Finset β) (need : ℕ),
      (∀ c ∈ l, band c = v) → (bandWalk band l seen need).length ≤ 1 := by
  intro l
  induction l with
  | nil => intro seen need _; rw [bandWalk]; simp
  | cons ch rest ih =>
    intro seen need h
    rw [bandWalk]
    by_cases hb : band ch ∈ seen
    · rw [if_pos hb]
      exact ih seen need (fun c hc => h c (List.mem_cons_of_mem ch hc))
    · rw [if_neg hb]
      by_cases hn : need ≤ 1
      · rw [if_pos hn]; simp
      · rw [if_neg hn]
        have hrest : bandWalk band rest (insert (band ch) seen) (need - 1) = [] := by
          apply bandWalk_all_seen
          intro c hc
          rw [h c (List.mem_cons_of_mem ch hc), ← h ch (List.mem_cons_self ch rest)]
          exact Finset.mem_insert_self _ _
        rw [hrest]
        simp

/-- A walk over a non-empty list with nothing seen yet emits something. -/
theorem bandWalk_ne_nil {β : Type} [DecidableEq β] (band : Chunk → β)
    (ch : Chunk) (rest : List Chunk) (need : ℕ) :
    bandWalk band (ch :: rest) ∅ need ≠ [] := by
  rw [bandWalk, if_neg (Finset.not_mem_empty (band ch))]
  by_cases hn : need ≤ 1
  · rw [if_pos hn]; simp
  · rw [if_neg hn]; simp

/-- C3: for every question, every topK, and every candidate list whose
candidates all share one band — same doc_id and same text-length // 200
bucket — both rerankers (ask.py _rerank with its (doc_id, length band)
banding and rerank.py rerank with its length banding) return at most one of
those candidates, regardless of topK. -/
theorem rerank_same_band_at_most_one (q : Str) (topK : ℤ)
    (cands : List Chunk) (d : Option ℕ) (b : ℕ)
    (h : ∀ c ∈ cands, c.doc_id = d ∧ c.text.length / 200 = b) :
    (_rerank q cands topK).length ≤ 1 ∧ (rerank q cands topK).length ≤ 1 := by
  constructor
  · simp only [_rerank]
    apply bandWalk_const_band askBand (d, b)
    intro c hc
    have hcc := h c (List.mem_mergeSort.mp hc)
    simp [askBand, hcc.1, hcc.2]
  · simp only [rerank]
    apply bandWalk_const_band rrBand b
    intro c hc
    exact (h c (List.mem_mergeSort.mp hc)).2

/-- C3 witness: two same-band candidates, topK = 5, at most one returned. -/
theorem rerank_same_band_at_most_one_witness :
    (_rerank ("hats".toList)
        [⟨1, some 7, none, none, "felt crown".toList⟩,
         ⟨2, some 7, none, none, "straw brim".toList⟩] 5).length ≤ 1
    ∧ (rerank ("hats".toList)
        [⟨1, some 7, none, none, "felt crown".toList⟩,
         ⟨2, some 7, none, none, "straw brim".toList⟩] 5).length ≤ 1 :=
  rerank_same_band_at_most_one ("hats".toList) 5
    [⟨1, some 7, none, none, "felt crown".toList⟩,
     ⟨2, some 7, none, none, "straw brim".toList⟩] (some 7) 0 (by decide)

/-- C10: for every non-empty candidate list and every topK (including
topK ≤ 0, thanks to the max(1, topK) clamp), both rerankers return a
non-empty list, and every returned element is one of the candidates. -/
theorem rerank_nonempty_and_subset (q : Str) (topK : ℤ)
    (cands : List Chunk) (h : cands ≠ []) :
    (rerank q cands topK ≠ [] ∧ ∀ c ∈ rerank q cands topK, c ∈ cands)
    ∧ (_rerank q cands topK ≠ [] ∧ ∀ c ∈ _rerank q cands topK, c ∈ cands) := by
  have hms : ∀ (le : Chunk → Chunk → Bool), cands.mergeSort le ≠ [] := by
    intro le hnil
    have hlen := (List.mergeSort_perm cands le).length_eq
    rw [hnil] at hlen
    exact h (List.length_eq_zero.mp hlen.symm)
  refine ⟨⟨?_, ?_⟩, ⟨?_, ?_⟩⟩
  · simp only [rerank]
    cases hm : cands.mergeSort
        (fun a b => decide (rrScore q b ≤ rrScore q a)) with
    | nil => exact absurd hm (hms _)
    | cons ch rest => exact bandWalk_ne_nil rrBand ch rest _
  · intro c hc
    simp only [rerank] at hc
    exact List.mem_mergeSort.mp (bandWalk_subset rrBand _ _ _ c hc)
  · simp only [_rerank]
    cases hm : cands.mergeSort
        (fun a b => decide (askScore q b ≤ askScore q a)) with
    | nil => exact absurd hm (hms _)
    | cons ch rest => exact bandWalk_ne_nil askBand ch rest _
  · intro c hc
    simp only [_rerank] at hc
    exact List.mem_mergeSort.mp (bandWalk_subset askBand _ _ _ c hc)

/-- C10 witness: a one-candidate list with topK = 0 still yields output,
all of it from the input. -/
theorem rerank_nonempty_and_subset_witness :
    (rerank ("felt".toList) [⟨3, none, none, none, "felt hat".toList⟩] 0 ≠ []
      ∧ ∀ c ∈ rerank ("felt".toList) [⟨3, none, none, none, "felt hat".toList⟩] 0,
          c ∈ [⟨3, none, none, none, "felt hat".toList⟩])
    ∧ (_rerank ("felt".toList) [⟨3, none, none, none, "felt hat".toList⟩] 0 ≠ []
      ∧ ∀ c ∈ _rerank ("felt".toList) [⟨3, none, none, none, "felt hat".toList⟩] 0,
          c ∈ [⟨3, none, none, none, "felt hat".toList⟩]) :=
  rerank_nonempty_and_subset ("felt".toList) 0
    [⟨3, none, none, none, "felt hat".toList⟩] (by decide)

/-- C1: ask.py _choose_mode lower-cases the question and applies the
spec's ordered keyword rules with first match winning (assembly, then
procedure, then comparison, then definition, else sme), and the five
spec examples map to procedure / assembly / definition / comparison / sme
respectively. -/
theorem choose_mode_ordered_rules :
    (∀ q : Str, _choose_mode q = choose_mode_spec q)
    ∧ _choose_mode ("How do I attach a brim to a crown?".toList) = "procedure"
    ∧ _choose_mode ("What are the components of a flat cap?".toList) = "assembly"
    ∧ _choose_mode ("What is felting?".toList) = "definition"
    ∧ _choose_mode ("Compare felt vs straw".toList) = "comparison"
    ∧ _choose_mode ("Tell me about seam allowances".toList) = "sme" := by
  refine ⟨fun q => ?_, by decide, by decide, by decide, by decide, by decide⟩
  simp only [_choose_mode, choose_mode_spec, firstMatch, modeRules, List.find?]
  cases assemblyCond (pyLower q) <;> cases procedureCond (pyLower q) <;>
    cases comparisonCond (pyLower q) <;> cases definitionCond (pyLower q) <;> rfl

/-- The logistic function is monotone. -/
theorem sigmoid_mono {x y : ℝ} (h : x ≤ y) : sigmoid x ≤ sigmoid y := by
  rw [sigmoid, sigmoid]
  have h1 : (0:ℝ) < 1 + Real.exp (-y) := by positivity
  have h2 : 1 + Real.exp (-y) ≤ 1 + Real.exp (-x) := by
    have := Real.exp_le_exp.mpr (neg_le_neg h)
    linarith
  exact one_div_le_one_div_of_le h1 h2

/-- Rounding to three decimals is weakly monotone. -/
theorem rRound3_mono {x y : ℝ} (h : x ≤ y) : rRound3 x ≤ rRound3 y := by
  rw [rRound3, rRound3]
  have hr : round (x * 1000) ≤ round (y * 1000) := by
    rw [round_eq, round_eq]
    exact Int.floor_mono (by linarith)
  have hc : ((round (x * 1000) : ℤ) : ℝ) ≤ ((round (y * 1000) : ℤ) : ℝ) := by
    exact_mod_cast hr
  exact div_le_div_of_nonneg_right hc (by norm_num)

/-- Larger feature combination gives larger calibrated confidence. -/
theorem calibrate_le_of_z_le {a1 b1 c1 a2 b2 c2 : ℚ} {f1 f2 : Bool}
    (h : calibrate_z a1 b1 c1 f1 ≤ calibrate_z a2 b2 c2 f2) :
    calibrate a1 b1 c1 f1 ≤ calibrate a2 b2 c2 f2 :=
  rRound3_mono (sigmoid_mono (by exact_mod_cast h))

/-- C4: calibrate is monotone — increasing any one of coverage,
consistency, or diversity (others fixed) does not decrease the confidence,
and lexical_fallback = true never yields more confidence than false. -/
theorem calibrate_monotone :
    (∀ c1 c2 con dv : ℚ, ∀ fall : Bool, c1 ≤ c2 →
        calibrate c1 con dv fall ≤ calibrate c2 con dv fall)
    ∧ (∀ cov n1 n2 dv : ℚ, ∀ fall : Bool, n1 ≤ n2 →
        calibrate cov n1 dv fall ≤ calibrate cov n2 dv fall)
    ∧ (∀ cov con d1 d2 : ℚ, ∀ fall : Bool, d1 ≤ d2 →
        calibrate cov con d1 fall ≤ calibrate cov con d2 fall)
    ∧ (∀ cov con dv : ℚ,
        calibrate cov con dv true ≤ calibrate cov con dv false) := by
  refine ⟨?_, ?_, ?_, ?_⟩
  · intro c1 c2 con dv fall h
    apply calibrate_le_of_z_le
    rw [calibrate_z, calibrate_z]
    nlinarith
  · intro cov n1 n2 dv fall h
    apply calibrate_le_of_z_le
    rw [calibrate_z, calibrate_z]
    nlinarith
  · intro cov con d1 d2 fall h
    apply calibrate_le_of_z_le
    rw [calibrate_z, calibrate_z]
    nlinarith
  · intro cov con dv
    apply calibrate_le_of_z_le
    rw [calibrate_z, calibrate_z]
    norm_num

/-- C4 witness: concrete monotonicity instances of calibrate. -/
theorem calibrate_monotone_witness :
    calibrate 0 0.9 0.7 false ≤ calibrate 1 0.9 0.7 false
    ∧ calibrate 0.6 0.9 0.7 true ≤ calibrate 0.6 0.9 0.7 false :=
  ⟨calibrate_monotone.1 0 1 0.9 0.7 false (by norm_num),
   calibrate_monotone.2.2.2 0.6 0.9 0.7⟩

/-- Whitespace characters are fixed points of lower-casing. -/
theorem toLower_of_ws {c : Char} (h : isPyWS c = true) : c.toLower = c := by
  simp only [isPyWS, Bool.or_eq_true, decide_eq_true_eq] at h
  rcases h with ((((h | h) | h) | h) | h) | h <;> subst h <;> decide

/-- Lower-casing a whitespace-only string changes nothing. -/
theorem pyLower_of_ws : ∀ (q : Str), (∀ c ∈ q, isPyWS c = true) →
    pyLower q = q := by
  intro q
  induction q with
  | nil => intro _; rfl
  | cons c cs ih =>
    intro h
    rw [pyLower, List.map_cons, toLower_of_ws (h c (List.mem_cons_self c cs))]
    have hcs := ih (fun x hx => h x (List.mem_cons_of_mem c hx))
    rw [pyLower] at hcs
    rw [hcs]

/-- Stripping a whitespace-only string yields the empty string. -/
theorem pyStrip_of_ws (q : Str) (h : ∀ c ∈ q, isPyWS c = true) :
    pyStrip q = [] := by
  rw [pyStrip, List.dropWhile_eq_nil_iff.mpr h]
  simp

/-- A needle with a non-whitespace character never occurs in a
whitespace-only string. -/
theorem strContains_ws_false {l : Str} (h : ∀ c ∈ l, isPyWS c = true)
    (k : Str) (c0 : Char) (hc0 : c0 ∈ k) (hnw : isPyWS c0 = false) :
    strContains l k = false := by
  rw [strContains, decide_eq_false_iff_not]
  intro hinf
  have hw := h c0 (hinf.subset hc0)
  rw [hw] at hnw
  exact Bool.noConfusion hnw

/-- A needle with a non-whitespace character never starts a whitespace-only
string. -/
theorem strStartsWith_ws_false {l : Str} (h : ∀ c ∈ l, isPyWS c = true)
    (k : Str) (c0 : Char) (hc0 : c0 ∈ k) (hnw : isPyWS c0 = false) :
    strStartsWith l k = false := by
  rw [strStartsWith, decide_eq_false_iff_not]
  intro hpre
  have hw := h c0 (hpre.isInfix.subset hc0)
  rw [hw] at hnw
  exact Bool.noConfusion hnw

/-- A whitespace-only question selects the default sme mode. -/
theorem choose_mode_of_ws (q : Str) (h : ∀ c ∈ q, isPyWS c = true) :
    _choose_mode q = "sme" := by
  have hl : ∀ c ∈ pyLower q, isPyWS c = true := by
    rw [pyLower_of_ws q h]; exact h
  have key : ∀ k : Str, k.any (fun c => !isPyWS c) = true →
      strContains (pyLower q) k = false := by
    intro k hk
    obtain ⟨c0, hc0, hcw⟩ := List.any_eq_true.mp hk
    exact strContains_ws_false hl k c0 hc0 (by simpa using hcw)
  have keyP : ∀ k : Str, k.any (fun c => !isPyWS c) = true →
      strStartsWith (pyLower q) k = false := by
    intro k hk
    obtain ⟨c0, hc0, hcw⟩ := List.any_eq_true.mp hk
    exact strStartsWith_ws_false hl k c0 hc0 (by simpa using hcw)
  have hA : assemblyCond (pyLower q) = false := by
    rw [assemblyCond]
    simp only [List.map_cons, List.map_nil, List.any_cons, List.any_nil]
    rw [key _ (by decide), key _ (by decide), key _ (by decide),
      key _ (by decide), key _ (by decide)]
    rfl
  have hP : procedureCond (pyLower q) = false := by
    rw [procedureCond]
    simp only [List.map_cons, List.map_nil, List.any_cons, List.any_nil]
    rw [keyP _ (by decide), keyP _ (by decide), keyP _ (by decide),
      key _ (by decide)]
    rfl
  have hC : comparisonCond (pyLower q) = false := by
    rw [comparisonCond]
    rw [key _ (by decide), key _ (by decide), key _ (by decide)]
    rfl
  have hD : definitionCond (pyLower q) = false := by
    rw [definitionCond]
    simp only [List.map_cons, List.map_nil, List.any_cons, List.any_nil]
    rw [keyP _ (by decide), keyP _ (by decide), keyP _ (by decide)]
    rfl
  rw [_choose_mode]
  simp only [hA, hP, hC, hD]
  rfl

/-- build on an empty or whitespace-only topic returns the degenerate
bundle without touching the store. -/
theorem build_of_ws (prov : Option Provider) (db? : Option DB) (q : Str)
    (lim : Option Limits) (h : ∀ c ∈ q, isPyWS c = true) :
    build prov db? q lim =
      .ok
        { topic := [], l0 := [], l1 := [], l2 := [], l3 := [],
          note := some "empty topic", notes := [], lim := none } := by
  simp only [build, pyStrip_of_ws q h, if_true]

/-- Python slicing of the empty list is empty. -/
theorem pyTake_nil {α : Type} (i : ℤ) : pyTake i ([] : List α) = [] := by
  rw [pyTake]; split <;> simp

/-- The banding walk over an empty list is empty. -/
theorem bandWalk_nil {β : Type} [DecidableEq β] (band : Chunk → β)
    (seen : Finset β) (need : ℕ) : bandWalk band [] seen need = [] := rfl

/-- The orchestrator's diversity of an empty candidate list is 0. -/
theorem diversity_nil : _diversity [] = 0 := by
  simp [_diversity]

/-- Rounding zero to three decimals gives zero. -/
theorem qRound3_zero : qRound3 0 = 0 := by
  simp [qRound3]

/-- run on an empty or whitespace-only question emits the degenerate
answer pack and never fails. -/
theorem run_of_ws (extract : Str → List Str) (prov : Option Provider)
    (db? : Option DB) (q : Str) (opts : Opts)
    (h : ∀ c ∈ q, isPyWS c = true) :
    run extract prov db? q opts =
      .ok
        { answer := noEvidenceMsg, citations := [], answer_mode := "sme",
          diversity := 0,
          trace := some (if opts.return_trace then [TraceEntry.base q 0 0]
            else []) } := by
  simp only [run]
  rw [build_of_ws prov db? q _ h, choose_mode_of_ws q h]
  simp only [show ("sme" = "assembly") = False from by simp, false_and,
    if_false]
  simp [List.length_nil, _rerank, List.mergeSort_nil, bandWalk_nil,
    _assemble_answer, List.filter_nil, List.map_nil, pyTake_nil,
    diversity_nil, qRound3_zero]

/-- C7: on an empty or whitespace-only topic, build returns a Bundle with
all four lists present and empty plus the empty-topic note, and on such a
question the orchestrator's run returns a normal degenerate AnswerPack —
neither raises, whatever the provider or store state. -/
theorem degenerate_inputs_total (extract : Str → List Str)
    (prov : Option Provider) (db? : Option DB) (q : Str)
    (lim : Option Limits) (opts : Opts) (h : ∀ c ∈ q, isPyWS c = true) :
    build prov db? q lim =
      .ok
        { topic := [], l0 := [], l1 := [], l2 := [], l3 := [],
          note := some "empty topic", notes := [], lim := none }
    ∧ run extract prov db? q opts =
      .ok
        { answer := noEvidenceMsg, citations := [], answer_mode := "sme",
          diversity := 0,
          trace := some (if opts.return_trace then [TraceEntry.base q 0 0]
            else []) } :=
  ⟨build_of_ws prov db? q lim h, run_of_ws extract prov db? q opts h⟩

/-- C7 witness: a two-space topic/question with no store and no provider. -/
theorem degenerate_inputs_total_witness :
    build none none ("  ".toList) none =
      .ok
        { topic := [], l0 := [], l1 := [], l2 := [], l3 := [],
          note := some "empty topic", notes := [], lim := none }
    ∧ run (fun _ => []) none none ("  ".toList) {} =
      .ok
        { answer := noEvidenceMsg, citations := [], answer_mode := "sme",
          diversity := 0,
          trace := some (if ({} : Opts).return_trace
            then [TraceEntry.base ("  ".toList) 0 0] else []) } :=
  degenerate_inputs_total (fun _ => []) none none ("  ".toList) none {}
    (by decide)

/-- C9 counterexample: with return_trace = false the emitted AnswerPack
still carries the trace field — it is set to the empty list, not omitted. -/
theorem trace_key_present_counterexample :
    run (fun _ => []) none none ("   ".toList) { return_trace := false } =
      .ok
        { answer := noEvidenceMsg, citations := [], answer_mode := "sme",
          diversity := 0, trace := some [] }
    ∧ (some ([] : List TraceEntry) ≠ none) := by
  constructor
  · have h := run_of_ws (fun _ => []) none none ("   ".toList)
      { return_trace := false } (by decide)
    simpa using h
  · simp

/-- C9 amended: when the caller opts out of tracing, the AnswerPack's trace
field is present but holds the empty list, for every successful run. -/
theorem trace_key_empty_when_opted_out (extract : Str → List Str)
    (prov : Option Provider) (db? : Option DB) (q : Str) (opts : Opts)
    (hrt : opts.return_trace = false) (pack : AnswerPack)
    (h : run extract prov db? q opts = .ok pack) :
    pack.trace = some [] := by
  simp only [run] at h
  split at h
  · exact absurd h (by simp)
  · split at h
    · exact absurd h (by simp)
    · simp only [Except.ok.injEq] at h
      rw [← h]
      simp [hrt]

/-- C9 amended witness: the concrete opted-out run has trace = some []. -/
theorem trace_key_empty_when_opted_out_witness :
    ({ answer := noEvidenceMsg, citations := [], answer_mode := "sme",
       diversity := 0, trace := some [] } : AnswerPack).trace = some [] :=
  trace_key_empty_when_opted_out (fun _ => []) none none ("   ".toList)
    { return_trace := false } rfl
    { answer := noEvidenceMsg, citations := [], answer_mode := "sme",
      diversity := 0, trace := some [] }
    (by simpa using run_of_ws (fun _ => []) none none ("   ".toList)
          (⟨800, 3, 6, false⟩ : Opts) (by decide))

/-- Shorter text yields at least as much brevity reward. -/
theorem rrBrev_antitone {s t : Str} (h : s.length ≤ t.length) :
    rrBrev t ≤ rrBrev s := by
  rw [rrBrev, rrBrev]
  have hp : (0:ℚ) < ((max s.length 80 : ℕ) : ℚ) := by
    have : (0:ℕ) < max s.length 80 :=
      lt_of_lt_of_le (by norm_num) (le_max_right _ _)
    exact_mod_cast this
  have hle : ((max s.length 80 : ℕ) : ℚ) ≤ ((max t.length 80 : ℕ) : ℚ) := by
    exact_mod_cast max_le_max h (le_refl 80)
  exact mul_le_mul_of_nonneg_right
    (one_div_le_one_div_of_le hp hle) (by norm_num)

/-- Shorter text yields at least as much brevity reward (ask.py variant). -/
theorem askBrev_antitone {s t : Str} (h : s.length ≤ t.length) :
    askBrev t ≤ askBrev s := by
  rw [askBrev, askBrev]
  have hp : (0:ℚ) < ((max s.length 120 : ℕ) : ℚ) := by
    have : (0:ℕ) < max s.length 120 :=
      lt_of_lt_of_le (by norm_num) (le_max_right _ _)
    exact_mod_cast this
  have hle : ((max s.length 120 : ℕ) : ℚ) ≤ ((max t.length 120 : ℕ) : ℚ) := by
    exact_mod_cast max_le_max h (le_refl 120)
  exact mul_le_mul_of_nonneg_right
    (one_div_le_one_div_of_le hp hle) (by norm_num)

/-- Evaluation rule for ask.py's substring coverage from its two counts. -/
theorem askCov_eval (q : Str) (ch : Chunk) (a b : ℕ)
    (h1 : (Finset.filter (fun t => strContains (pyLower ch.text) t = true)
      (_q_tokens q)).card = a)
    (h2 : pyOr (_q_tokens q).card 1 = b) :
    askCov q ch = (a : ℚ) / (b : ℚ) := by
  simp only [askCov]
  rw [h1, h2]

/-- Evaluation rule for the claimed token-intersection coverage from its
two counts, on a question that has tokens. -/
theorem tokenCoverageSpec_eval (q : Str) (ch : Chunk) (a b : ℕ)
    (h0 : _q_tokens q ≠ ∅)
    (h1 : (_q_tokens q ∩
      ((wsSplit (pyLower ch.text)).filter pyIsAlphaTok).toFinset).card = a)
    (h2 : (_q_tokens q).card = b) :
    tokenCoverageSpec q ch = (a : ℚ) / (b : ℚ) := by
  simp only [tokenCoverageSpec]
  rw [if_neg h0, h1, h2]

/-- C2 counterexample: the claimed token-intersection score formula fails
on both cited rerankers. On a question with no tokens both coverages are 0
while the claim posits 1, so rerank.py's score (first conjunct) and ask.py
_rerank's score (third conjunct) differ from the claimed value. And ask.py
_rerank counts question tokens occurring as substrings — question "cap"
against text "capable" has empty token intersection yet substring coverage
1, so its actual score exceeds even the largest value the claimed formula
allows at any weights with w_cov ≤ 0.70 and w_brev ≤ 0.35 (second
conjunct: coverage and brevity are nonnegative, so every admissible
weighting of the claimed coverage stays ≤ the stated bound). -/
theorem rerank_score_claim_counterexample :
    (rrScore [] ⟨0, none, none, none, "hello".toList⟩ ≠
      0.65 * tokenCoverageSpec [] ⟨0, none, none, none, "hello".toList⟩
        + 0.35 * rrBrev (pyLower ("hello".toList)))
    ∧ (0.70 * tokenCoverageSpec ("cap".toList) ⟨1, none, none, none, "capable".toList⟩
        + 0.35 * askBrev (pyLower ("capable".toList))
        < askScore ("cap".toList) ⟨1, none, none, none, "capable".toList⟩)
    ∧ (askScore [] ⟨0, none, none, none, "hello".toList⟩ ≠
      0.7 * tokenCoverageSpec [] ⟨0, none, none, none, "hello".toList⟩
        + 0.3 * askBrev (pyLower ("hello".toList))) := by
  have h1 : _q_tokens ([] : Str) = ∅ := by decide
  have hspec1 : tokenCoverageSpec [] ⟨0, none, none, none, "hello".toList⟩ = 1 := by
    simp [tokenCoverageSpec, h1]
  refine ⟨?_, ?_, ?_⟩
  · have hc0 : rrCov [] ⟨0, none, none, none, "hello".toList⟩ = 0 := by
      simp [rrCov, h1]
    rw [rrScore, hc0, hspec1]
    intro heq
    linarith
  · have hspec0 : tokenCoverageSpec ("cap".toList)
        ⟨1, none, none, none, "capable".toList⟩ = 0 := by
      rw [tokenCoverageSpec_eval ("cap".toList)
        ⟨1, none, none, none, "capable".toList⟩ 0 1 (by decide) (by decide)
        (by decide)]
      norm_num
    have hcov : askCov ("cap".toList)
        ⟨1, none, none, none, "capable".toList⟩ = 1 := by
      rw [askCov_eval ("cap".toList) ⟨1, none, none, none, "capable".toList⟩
        1 1 (by decide) (by decide)]
      norm_num
    have hbrev : askBrev (pyLower ("capable".toList)) = 1 := by
      rw [askBrev]
      rw [show max (pyLower ("capable".toList)).length 120 = 120 from by decide]
      norm_num
    have hs : askScore ("cap".toList) ⟨1, none, none, none, "capable".toList⟩
        = 0.7 * askCov ("cap".toList) ⟨1, none, none, none, "capable".toList⟩
          + 0.3 * askBrev (pyLower ("capable".toList)) := rfl
    rw [hs, hspec0, hcov, hbrev]
    norm_num
  · have hac0 : askCov [] ⟨0, none, none, none, "hello".toList⟩ = 0 := by
      simp [askCov, h1]
    rw [askScore, hac0, hspec1]
    intro heq
    linarith

/-- C2 amended: each reranker's score is w_cov × coverage + w_brev ×
brevity — rerank.py with 0.65/0.35 and coverage = token-set intersection
over question-token count, ask.py _rerank with 0.7/0.3 and coverage = the
count of question tokens occurring as substrings of the lower-cased
candidate text over question-token count; in both, coverage is 0 (not 1)
when the question has no tokens, and with equal coverage a shorter
candidate never scores below a longer one. -/
theorem rerank_score_formula :
    (∀ (q : Str) (ch : Chunk),
      rrScore q ch = 0.65 * rrCov q ch + 0.35 * rrBrev (pyLower ch.text))
    ∧ (∀ (q : Str) (ch : Chunk), _q_tokens q ≠ ∅ →
        rrCov q ch =
          ((_q_tokens q ∩
            ((wsSplit (pyLower ch.text)).filter pyIsAlphaTok).toFinset).card : ℚ)
            / ((_q_tokens q).card : ℚ))
    ∧ (∀ (q : Str) (ch : Chunk), _q_tokens q = ∅ → rrCov q ch = 0)
    ∧ (∀ (q : Str) (c1 c2 : Chunk), rrCov q c1 = rrCov q c2 →
        c1.text.length ≤ c2.text.length → rrScore q c2 ≤ rrScore q c1)
    ∧ (∀ (q : Str) (ch : Chunk),
      askScore q ch = 0.7 * askCov q ch + 0.3 * askBrev (pyLower ch.text))
    ∧ (∀ (q : Str) (ch : Chunk), _q_tokens q ≠ ∅ →
        askCov q ch =
          ((Finset.filter (fun t => strContains (pyLower ch.text) t = true)
            (_q_tokens q)).card : ℚ)
            / ((_q_tokens q).card : ℚ))
    ∧ (∀ (q : Str) (ch : Chunk), _q_tokens q = ∅ → askCov q ch = 0)
    ∧ (∀ (q : Str) (c1 c2 : Chunk), askCov q c1 = askCov q c2 →
        c1.text.length ≤ c2.text.length → askScore q c2 ≤ askScore q c1) := by
  refine ⟨fun q ch => rfl, ?_, ?_, ?_, fun q ch => rfl, ?_, ?_, ?_⟩
  · intro q ch h
    rw [rrCov]
    rw [pyOr, if_neg (mt Finset.card_eq_zero.mp h)]
  · intro q ch h
    simp [rrCov, h]
  · intro q c1 c2 hcov hlen
    rw [rrScore, rrScore, hcov]
    have hb : rrBrev (pyLower c2.text) ≤ rrBrev (pyLower c1.text) :=
      rrBrev_antitone (by simpa [pyLower] using hlen)
    linarith
  · intro q ch h
    rw [askCov]
    rw [pyOr, if_neg (mt Finset.card_eq_zero.mp h)]
  · intro q ch h
    simp [askCov, h]
  · intro q c1 c2 hcov hlen
    rw [askScore, askScore, hcov]
    have hb : askBrev (pyLower c2.text) ≤ askBrev (pyLower c1.text) :=
      askBrev_antitone (by simpa [pyLower] using hlen)
    linarith

/-- C2 witness: a digits-only question has no tokens, and both coverages
evaluate to 0. -/
theorem rerank_score_formula_witness :
    rrCov ("123".toList) ⟨9, none, none, none, "hat".toList⟩ = 0
    ∧ askCov ("123".toList) ⟨9, none, none, none, "hat".toList⟩ = 0 :=
  ⟨rerank_score_formula.2.2.1 ("123".toList) ⟨9, none, none, none, "hat".toList⟩
    (by decide),
   rerank_score_formula.2.2.2.2.2.2.1 ("123".toList)
    ⟨9, none, none, none, "hat".toList⟩ (by decide)⟩

/-- C5 counterexample: on an empty candidate list the orchestrator's
diversity is 0, not the claimed 1.0. -/
theorem diversity_empty_counterexample : _diversity [] ≠ 1 := by
  rw [diversity_nil]
  norm_num

/-- C5 amended: on a non-empty candidate list the diversity is the number
of distinct non-null doc ids over the number of candidates; on the empty
list it is 0 (not 1.0). -/
theorem diversity_formula :
    _diversity [] = 0
    ∧ ∀ chunks : List Chunk, chunks ≠ [] →
        _diversity chunks =
          ((chunks.filterMap Chunk.doc_id).toFinset.card : ℚ)
            / (chunks.length : ℚ) := by
  refine ⟨diversity_nil, ?_⟩
  intro chunks h
  simp only [_diversity]
  have h1 : (List.map Chunk.doc_id chunks).filterMap id
      = chunks.filterMap Chunk.doc_id := by
    rw [List.filterMap_map]
    rfl
  have h2 : max 1 (List.map Chunk.doc_id chunks).length = chunks.length := by
    rw [List.length_map]
    exact max_eq_right (Nat.one_le_iff_ne_zero.mpr
      (fun h0 => h (List.length_eq_zero.mp h0)))
  rw [h1, h2, ← List.card_toFinset]

/-- C5 witness: a singleton candidate list evaluates to the claimed
fraction. -/
theorem diversity_formula_witness :
    _diversity [⟨1, some 4, none, none, []⟩] =
      ((([⟨1, some 4, none, none, []⟩] : List Chunk).filterMap
          Chunk.doc_id).toFinset.card : ℚ)
        / (([⟨1, some 4, none, none, ([] : Str)⟩] : List Chunk).length : ℚ) :=
  diversity_formula.2 [⟨1, some 4, none, none, []⟩] (by decide)

/-- The truncated text never exceeds budget + marker once the budget is at
least 1. -/
theorem truncateChunkText_length_le (m : ℤ) (t : Str) (hm : 1 ≤ m) :
    ((truncateChunkText m t).length : ℤ) ≤ m + (ellipsisMarker.length : ℤ) := by
  rw [truncateChunkText]
  by_cases hlt : m < (t.length : ℤ)
  · rw [if_pos hlt, List.length_append]
    have htake : (pyTake (m - 1) t).length = (m - 1).toNat := by
      rw [pyTake, if_pos (by omega : (0:ℤ) ≤ m - 1), List.length_take]
      omega
    rw [htake]
    omega
  · rw [if_neg hlt]
    omega

/-- Text within the budget is returned unmodified. -/
theorem truncateChunkText_of_le (m : ℤ) (t : Str)
    (h : (t.length : ℤ) ≤ m) : truncateChunkText m t = t := by
  rw [truncateChunkText, if_neg (by omega)]

/-- C6 counterexample: at budget 0 the Python slice t[:-1] keeps all but
the last character, so the bound m + marker fails for "abcd". -/
theorem truncation_budget_counterexample :
    ¬ (((truncateChunkText 0 ("abcd".toList)).length : ℤ) ≤
      0 + (ellipsisMarker.length : ℤ)) := by decide

/-- C6 amended: for every budget m ≥ 1 the truncated chunk text has length
at most m plus the ellipsis marker, text within budget is unmodified, and
every chunk text in a built bundle obeys the bound. -/
theorem truncation_budget :
    (∀ (m : ℤ) (t : Str), 1 ≤ m →
      ((truncateChunkText m t).length : ℤ) ≤ m + (ellipsisMarker.length : ℤ)
      ∧ ((t.length : ℤ) ≤ m → truncateChunkText m t = t))
    ∧ ∀ (prov : Option Provider) (db : DB) (topic : Str) (lim : Limits)
        (b : Bundle), 1 ≤ lim.chunk_text_max →
        build prov (some db) topic (some lim) = .ok b →
        ∀ c ∈ b.l3, (c.text.length : ℤ) ≤
          lim.chunk_text_max + (ellipsisMarker.length : ℤ) := by
  constructor
  · intro m t hm
    exact ⟨truncateChunkText_length_le m t hm, truncateChunkText_of_le m t⟩
  · intro prov db topic lim b hm hb c hc
    simp only [build] at hb
    by_cases hts : pyStrip topic = []
    · rw [if_pos hts] at hb
      simp only [Except.ok.injEq] at hb
      rw [← hb] at hc
      simp at hc
    · rw [if_neg hts] at hb
      simp only [Except.ok.injEq, Option.getD_some] at hb
      rw [← hb] at hc
      simp only [List.mem_map] at hc
      obtain ⟨c', _, rfl⟩ := hc
      exact truncateChunkText_length_le lim.chunk_text_max c'.text hm

/-- C6 witness: budget 5 on an 8-character text respects the bound. -/
theorem truncation_budget_witness :
    ((truncateChunkText 5 ("abcdefgh".toList)).length : ℤ) ≤
      5 + (ellipsisMarker.length : ℤ) :=
  (truncation_budget.1 5 ("abcdefgh".toList) (by decide)).1

/-- C8 counterexample: the fallback score drops query tokens of length ≤ 2,
so "an ox" scores 0 against itself while the claimed plain token-overlap
formula gives 1. -/
theorem lexical_score_short_token_counterexample :
    lexical_score ("an ox".toList) ("an ox".toList) ≠
      lexical_score_claim ("an ox".toList) ("an ox".toList) := by
  have hL : lexical_score ("an ox".toList) ("an ox".toList) = 0 := by
    simp only [lexical_score]
    rw [if_neg (by decide), if_pos (by decide)]
  have hR : lexical_score_claim ("an ox".toList) ("an ox".toList) = 1 := by
    simp only [lexical_score_claim]
    rw [if_neg (by decide)]
    rw [show ((wsSplit (pyLower ("an ox".toList))).toFinset ∩
      lexTTokens ("an ox".toList)).card = 2 from by decide]
    rw [show (wsSplit (pyLower ("an ox".toList))).toFinset.card = 2 from by decide]
    norm_num
  rw [hL, hR]
  norm_num

/-- C8 amended: the fallback score always lies in [0, 1], is 0 when the
filtered query-token set (whitespace tokens of length > 2) is empty, and
otherwise equals the intersection count over the filtered query-token
count. -/
theorem lexical_score_formula :
    (∀ q t : Str, 0 ≤ lexical_score q t ∧ lexical_score q t ≤ 1)
    ∧ (∀ q t : Str, lexQTokens q = ∅ → lexical_score q t = 0)
    ∧ (∀ q t : Str, q ≠ [] → t ≠ [] → lexQTokens q ≠ ∅ →
        lexical_score q t =
          ((lexQTokens q ∩ lexTTokens t).card : ℚ)
            / ((lexQTokens q).card : ℚ)) := by
  refine ⟨?_, ?_, ?_⟩
  · intro q t
    simp only [lexical_score]
    split_ifs with h1 h2
    · norm_num
    · norm_num
    · constructor
      · positivity
      · apply div_le_one_of_le₀
        · exact_mod_cast le_trans
            (Finset.card_le_card Finset.inter_subset_left)
            (le_max_right 1 (lexQTokens q).card)
        · positivity
  · intro q t h
    rw [lexical_score]
    split_ifs <;> simp_all
  · intro q t hq ht hqs
    rw [lexical_score, if_neg (by simp [hq, ht]), if_neg hqs]
    rw [max_eq_right (Nat.one_le_iff_ne_zero.mpr
      (mt Finset.card_eq_zero.mp hqs))]

/-- C8 witness: "hat color" vs "red hat" evaluates to the claimed
fraction. -/
theorem lexical_score_formula_witness :
    lexical_score ("hat color".toList) ("red hat".toList) =
      ((lexQTokens ("hat color".toList) ∩ lexTTokens ("red hat".toList)).card : ℚ)
        / ((lexQTokens ("hat color".toList)).card : ℚ) :=
  lexical_score_formula.2.2 ("hat color".toList) ("red hat".toList)
    (by decide) (by decide) (by decide)

end SME
